import Mathlib

/-!
Shallow embedding of the legal-text-to-table converter core
(TextSplitter, ClauseNumberDetector, LeadingPhraseDetector,
DevanagariParser, RowGenerator, TextExtractor.cleanText, and the
collapse view), with theorems settling the specification claims.
Strings are modelled as lists of characters; JavaScript regular
expressions are embedded as deterministic greedy scanners, which is
faithful here because in every pattern the character class following
an optional or starred piece is disjoint from that piece's class, so
regex backtracking can never produce a different result.
-/

/-- JavaScript whitespace class: the characters matched by regex
backslash-s and trimmed by String.prototype.trim / trimStart. -/
def isJsWs (c : Char) : Bool :=
  c = ' ' || c = '\t' || c = '\n' || c.toNat = 0xb || c.toNat = 0xc ||
  c = '\r' || c.toNat = 0xa0 || c.toNat = 0x1680 ||
  (0x2000 ≤ c.toNat && c.toNat ≤ 0x200a) ||
  c.toNat = 0x2028 || c.toNat = 0x2029 || c.toNat = 0x202f ||
  c.toNat = 0x205f || c.toNat = 0x3000 || c.toNat = 0xfeff

/-- ASCII digit 0-9 (JS regex backslash-d). -/
def isAsciiDigit (c : Char) : Bool :=
  0x30 ≤ c.toNat && c.toNat ≤ 0x39

/-- ASCII lowercase letter a-z. -/
def isAsciiLower (c : Char) : Bool :=
  0x61 ≤ c.toNat && c.toNat ≤ 0x7a

/-- ASCII uppercase letter A-Z. -/
def isAsciiUpper (c : Char) : Bool :=
  0x41 ≤ c.toNat && c.toNat ≤ 0x5a

/-- ASCII letter a-zA-Z. -/
def isAsciiLetter (c : Char) : Bool :=
  isAsciiLower c || isAsciiUpper c

/-- Devanagari digit ०-९ (U+0966..U+096F). -/
def isDevDigit (c : Char) : Bool :=
  0x966 ≤ c.toNat && c.toNat ≤ 0x96f

/-- The regex character range क-य (U+0915..U+092F) used by the clause
and sub-clause patterns. -/
def isDevRangeLetter (c : Char) : Bool :=
  0x915 ≤ c.toNat && c.toNat ≤ 0x92f

/-- Devanagari Unicode block U+0900..U+097F, the class used by
DevanagariParser.hasDevanagari and RowGenerator.detectLanguage. -/
def isDevBlock (c : Char) : Bool :=
  0x900 ≤ c.toNat && c.toNat ≤ 0x97f

/-- JS String.prototype.trimStart. -/
def jsTrimStart (cs : List Char) : List Char :=
  cs.dropWhile isJsWs

/-- JS String.prototype.trimEnd. -/
def jsTrimEnd (cs : List Char) : List Char :=
  (cs.reverse.dropWhile isJsWs).reverse

/-- JS String.prototype.trim. -/
def jsTrim (cs : List Char) : List Char :=
  jsTrimEnd (jsTrimStart cs)

/-- JS text.split of a string on a newline: the list of
newline-separated lines; the empty string gives one empty line. -/
def splitLines : List Char → List (List Char)
  | [] => [[]]
  | c :: rest =>
    if c = '\n' then [] :: splitLines rest
    else
      match splitLines rest with
      | [] => [[c]]
      | l :: ls => (c :: l) :: ls

/-- ClauseNumberDetector.amendmentSymbols: the closed set of 12
amendment glyphs. -/
def amendmentSymbols : List Char :=
  ['☑', '*', '†', '‡', '§', '¶', '•', '◆', '■', '▪', '▲', '►']

/-- Inner character class of the sub-clause pattern:
0-9, a-z, A-Z, क-य, ०-९. -/
def isSubClauseInner (c : Char) : Bool :=
  isAsciiDigit c || isAsciiLetter c || isDevRangeLetter c || isDevDigit c

/-- ClauseNumberDetector.subClausePattern test: whether the line starts
(after optional whitespace) with an opening parenthesis, one or more
class characters, and a closing parenthesis. -/
def subClauseMatches (cs : List Char) : Bool :=
  match cs.dropWhile isJsWs with
  | '(' :: rest =>
    let inner := rest.takeWhile isSubClauseInner
    decide (inner ≠ []) &&
      (match rest.dropWhile isSubClauseInner with
       | ')' :: _ => true
       | _ => false)
  | _ => false

/-- ClauseNumberDetector.isSubClause: applies the sub-clause pattern to
the left-trimmed line. -/
def isSubClause (line : List Char) : Bool :=
  subClauseMatches (jsTrimStart line)

/-- Result of a clause-number regex match: the full matched text
(match 0) and the captured numeral group (match 1). -/
structure RegexMatch where
  full : List Char
  group : List Char
deriving DecidableEq, Repr

/-- The optional leading amendment symbol consumed by both clause
patterns. -/
def symPart (cs : List Char) : List Char :=
  match cs with
  | c :: _ => if c ∈ amendmentSymbols then [c] else []
  | [] => []

/-- The scan position after the optional amendment symbol and the
following optional whitespace, shared by both clause patterns. -/
def afterSymWs (cs : List Char) : List Char :=
  (cs.drop (symPart cs).length).dropWhile isJsWs

/-- Shared shape of the English and Devanagari clause patterns:
optional amendment symbol, optional whitespace, one or more digits
(per the digit class), optional single letter (per the letter class),
optional whitespace, a literal period. Greedy scanning is faithful
because symbols, whitespace, digits, letters, and the period are
pairwise disjoint classes. -/
def matchClauseShape (isDig isLet : Char → Bool) (cs : List Char) :
    Option RegexMatch :=
  let sym := symPart cs
  let cs1 := cs.drop sym.length
  let ws1 := cs1.takeWhile isJsWs
  let cs2 := afterSymWs cs
  let ds := cs2.takeWhile isDig
  if ds = [] then none
  else
    let cs3 := cs2.dropWhile isDig
    let suf : List Char :=
      match cs3 with
      | c :: _ => if isLet c then [c] else []
      | [] => []
    let cs4 := cs3.drop suf.length
    let ws2 := cs4.takeWhile isJsWs
    match cs4.dropWhile isJsWs with
    | '.' :: _ => some ⟨sym ++ ws1 ++ ds ++ suf ++ ws2 ++ ['.'], ds ++ suf⟩
    | _ => none

/-- ClauseNumberDetector.englishNumeralPattern (case-insensitive, so
the optional suffix letter is any ASCII letter). -/
def matchEnglish (cs : List Char) : Option RegexMatch :=
  matchClauseShape isAsciiDigit isAsciiLetter cs

/-- ClauseNumberDetector.devanagariNumeralPattern. -/
def matchDevanagari (cs : List Char) : Option RegexMatch :=
  matchClauseShape isDevDigit isDevRangeLetter cs

/-- DevanagariParser.devanagariLetters: the 26 consonants mapped to
a-z (the range क-य minus ऩ). -/
def devanagariLetterKeys : List Char :=
  ['क', 'ख', 'ग', 'घ', 'ङ', 'च', 'छ', 'ज', 'झ', 'ञ', 'ट', 'ठ', 'ड',
   'ढ', 'ण', 'त', 'थ', 'द', 'ध', 'न', 'प', 'फ', 'ब', 'भ', 'म', 'य']

/-- DevanagariParser.isAlphaNumeric: whether the numeral's last
character is one of the 26 mapped consonants. -/
def devIsAlphaNumeric (numeral : List Char) : Bool :=
  match numeral.getLast? with
  | some c => c ∈ devanagariLetterKeys
  | none => false

/-- Language tags returned by RowGenerator.detectLanguage (and the
language field of clause detection). -/
inductive Lang where
  | english
  | devanagari
  | mixed
  | other
  | unknown
deriving DecidableEq, Repr

/-- Result object of ClauseNumberDetector.detectClauseNumber. -/
structure ClauseDetected where
  fullClause : List Char
  baseNumber : List Char
  amendment : Option Char
  language : Lang
  hasAlpha : Bool
deriving DecidableEq, Repr

/-- ClauseNumberDetector.extractAmendmentSymbol: first character of
the left-trimmed text when it is an amendment glyph. -/
def extractAmendmentSymbol (text : List Char) : Option Char :=
  match text.dropWhile isJsWs with
  | c :: _ => if c ∈ amendmentSymbols then some c else none
  | [] => none

/-- ClauseNumberDetector.detectClauseNumber. The JS guard
(not line, or line.trim() empty) collapses to the trimmed line being
empty, since the empty string trims to itself. -/
def detectClauseNumber (line : List Char) : Option ClauseDetected :=
  if jsTrim line = [] then none
  else
    let trimmedLine := jsTrimStart line
    if subClauseMatches trimmedLine then none
    else
      match matchEnglish trimmedLine with
      | some m =>
        some ⟨jsTrim m.full, m.group, extractAmendmentSymbol trimmedLine,
              Lang.english, m.group.any isAsciiLetter⟩
      | none =>
        match matchDevanagari trimmedLine with
        | some m =>
          some ⟨jsTrim m.full, m.group, extractAmendmentSymbol trimmedLine,
                Lang.devanagari, devIsAlphaNumeric m.group⟩
        | none => none

/-- The reconstruction done by ClauseNumberDetector.getClauseNumberRow:
prepend the amendment symbol (when present) to the full clause text. -/
def reconstructClauseRow (d : ClauseDetected) : List Char :=
  match d.amendment with
  | some a => a :: d.fullClause
  | none => d.fullClause

/-- ClauseNumberDetector.getClauseNumberRow. -/
def getClauseNumberRow (line : List Char) : Option (List Char) :=
  (detectClauseNumber line).map reconstructClauseRow

/-- ClauseNumberDetector.getRemainder: left-trimmed text after the
first period of the left-trimmed line, or none when empty or when no
clause number was detected. -/
def getRemainder (line : List Char) : Option (List Char) :=
  match detectClauseNumber line with
  | none => none
  | some _ =>
    let trimmed := jsTrimStart line
    match trimmed.findIdx? (· = '.') with
    | some i =>
      let remainder := jsTrimStart (trimmed.drop (i + 1))
      if remainder = [] then none else some remainder
    | none => none

/-- LeadingPhraseDetector.detectLeadingPhrase on the remainder text:
the phrase (text before the first colon, trimmed, with the colon
re-attached) and the optional content after the colon (trimmed; none
when empty). -/
def detectLeadingPhrase (remainder : List Char) :
    Option (List Char × Option (List Char)) :=
  if remainder = [] then none
  else
    match remainder.findIdx? (· = ':') with
    | none => none
    | some i =>
      let phraseRaw := jsTrim (remainder.take i)
      if phraseRaw = [] then none
      else
        let content := jsTrim (remainder.drop (i + 1))
        some (phraseRaw ++ [':'], if content = [] then none else some content)

/-- LeadingPhraseDetector.getLeadingPhrase. -/
def getLeadingPhrase (line : List Char) : Option (List Char) :=
  match detectClauseNumber line with
  | none => none
  | some _ =>
    match getRemainder line with
    | none => none
    | some r => (detectLeadingPhrase r).map Prod.fst

/-- LeadingPhraseDetector.getContentAfterPhrase. -/
def getContentAfterPhrase (line : List Char) : Option (List Char) :=
  match detectClauseNumber line with
  | none => none
  | some _ =>
    match getRemainder line with
    | none => none
    | some r =>
      match detectLeadingPhrase r with
      | none => none
      | some (_, content) => content

/-- The per-line body of TextSplitter.splitText: the rows pushed for
one input line. -/
def processLine (line : List Char) : List (List Char) :=
  match detectClauseNumber line with
  | some d =>
    let clauseRow := reconstructClauseRow d
    match getLeadingPhrase line with
    | some phrase =>
      match getContentAfterPhrase line with
      | some content => [clauseRow, phrase, content]
      | none => [clauseRow, phrase]
    | none =>
      match getRemainder line with
      | some rem => [clauseRow, rem]
      | none => [clauseRow]
  | none =>
    if isSubClause line then [line] else [line]

/-- TextSplitter.splitText on an actual string: the falsy guard
returns the empty list for the empty string; otherwise each
newline-separated line is processed in order. -/
def splitTextL (text : List Char) : List (List Char) :=
  if text = [] then []
  else (splitLines text).flatMap processLine

/-- A JavaScript value handed to the core entry points; the pipeline
only distinguishes strings from everything else. -/
inductive JSInput where
  | jsNull
  | jsUndefined
  | jsNum (n : Int)
  | jsBool (b : Bool)
  | jsStr (s : List Char)
deriving DecidableEq, Repr

/-- Whether the JS value is a string. -/
def JSInput.isString : JSInput → Bool
  | .jsStr _ => true
  | _ => false

/-- TextSplitter.splitText over a JS value: the guard
(not text, or typeof text not string) returns the empty list for
every non-string and for the empty string. -/
def splitTextJS : JSInput → List (List Char)
  | .jsStr s => splitTextL s
  | _ => []

/-- The row-normalization pass of TextSplitter.splitWithNormalization:
trim, then collapse every run of two or more spaces to one space. -/
def collapseSpaces : List Char → List Char
  | [] => []
  | [c] => [c]
  | c1 :: c2 :: rest =>
    if c1 = ' ' && c2 = ' ' then collapseSpaces (c2 :: rest)
    else c1 :: collapseSpaces (c2 :: rest)

/-- TextSplitter.splitWithNormalization. -/
def splitWithNormalization (text : List Char) : List (List Char) :=
  (splitTextL text).map (fun row => collapseSpaces (jsTrim row))

/-- One optional amendment symbol at the very start of the anchored
row pattern of RowGenerator.isClauseNumber (skipping it is never an
alternative since no symbol is a digit). -/
def stripOneSymbol (t : List Char) : List Char :=
  match t with
  | c :: rest => if c ∈ amendmentSymbols then rest else t
  | [] => []

/-- Tail of the anchored row pattern after the digits: an optional
letter (per the letter class), then an optional period, then the end
of the string. -/
def sufDot (isLet : Char → Bool) (t2 : List Char) : Bool :=
  match t2 with
  | [] => true
  | c :: rest =>
    if isLet c then decide (rest = []) || decide (rest = ['.'])
    else decide (c :: rest = ['.'])

/-- Digits-and-tail of the anchored row pattern of
RowGenerator.isClauseNumber, after the optional symbol: one or more
digits, optional letter, optional period, end of string. -/
def anchoredCore (isDig isLet : Char → Bool) (t1 : List Char) : Bool :=
  let ds := t1.takeWhile isDig
  decide (ds ≠ []) && sufDot isLet (t1.dropWhile isDig)

/-- RowGenerator.isClauseNumber helper: the anchored English pattern,
one optional amendment symbol, one or more ASCII digits, an optional
lowercase letter, an optional period, end of string (case-sensitive,
no interior whitespace allowed). -/
def engAnchored (t : List Char) : Bool :=
  anchoredCore isAsciiDigit isAsciiLower (stripOneSymbol t)

/-- RowGenerator.isClauseNumber helper: the anchored Devanagari
pattern, digits ०-९, optional letter क-य, optional period. -/
def devAnchored (t : List Char) : Bool :=
  anchoredCore isDevDigit isDevRangeLetter (stripOneSymbol t)

/-- RowGenerator.isClauseNumber: whether the trimmed row text fully
matches the anchored English or Devanagari clause-number pattern. -/
def rowIsClauseNumber (text : List Char) : Bool :=
  if jsTrim text = [] then false
  else engAnchored (jsTrim text) || devAnchored (jsTrim text)

/-- RowGenerator.isLeadingPhrase: non-blank text whose trimmed form
ends with a colon. -/
def rowIsLeadingPhrase (text : List Char) : Bool :=
  if jsTrim text = [] then false
  else
    match (jsTrim text).getLast? with
    | some c => c = ':'
    | none => false

/-- RowGenerator.isAmendment: the text contains one of the 12
amendment glyphs. -/
def rowIsAmendment (text : List Char) : Bool :=
  text.any (fun c => c ∈ amendmentSymbols)

/-- RowGenerator.detectLanguage. The falsy guard returns the fifth
tag (unknown) for the empty string. -/
def detectLanguage (text : List Char) : Lang :=
  if text = [] then Lang.unknown
  else
    let hasEnglish := text.any isAsciiLetter
    let hasDevanagari := text.any isDevBlock
    if hasEnglish && hasDevanagari then Lang.mixed
    else if hasDevanagari then Lang.devanagari
    else if hasEnglish then Lang.english
    else Lang.other

/-- A Row record as built by RowGenerator.generateRows. -/
structure Row where
  number : Nat
  text : List Char
  isEmpty : Bool
  isClauseNumber : Bool
  isLeadingPhrase : Bool
  isAmendment : Bool
  language : Lang
  length : Nat
deriving DecidableEq, Repr

/-- One Row record from a 1-based index and its text. -/
def mkRow (n : Nat) (text : List Char) : Row :=
  { number := n
    text := text
    isEmpty := jsTrim text = []
    isClauseNumber := rowIsClauseNumber text
    isLeadingPhrase := rowIsLeadingPhrase text
    isAmendment := rowIsAmendment text
    language := detectLanguage text
    length := text.length }

/-- The indexed loop of RowGenerator.generateRows. -/
def generateRowsAux : Nat → List (List Char) → List Row
  | _, [] => []
  | n, t :: rest => mkRow n t :: generateRowsAux (n + 1) rest

/-- RowGenerator.generateRows: row numbers start at 1. -/
def generateRows (rows : List (List Char)) : List Row :=
  generateRowsAux 1 rows

/-- RowGenerator.generateRowsFromText: split with normalization, then
project to Row records. -/
def generateRowsFromText (text : List Char) : List Row :=
  generateRows (splitWithNormalization text)

/-- The first replace pass of TextExtractor.cleanText: every CRLF pair
becomes a single newline, scanning left to right. -/
def replaceCRLF : List Char → List Char
  | [] => []
  | [c] => [c]
  | c1 :: c2 :: rest =>
    if c1 = '\r' ∧ c2 = '\n' then '\n' :: replaceCRLF rest
    else c1 :: replaceCRLF (c2 :: rest)

/-- The second replace pass of TextExtractor.cleanText: every
remaining carriage return becomes a newline. -/
def replaceCR (cs : List Char) : List Char :=
  cs.map (fun c => if c = '\r' then '\n' else c)

/-- TextExtractor.cleanText: empty for falsy input, else strip a
leading BOM and normalize line endings to newline. -/
def cleanTextL (text : List Char) : List Char :=
  if text = [] then []
  else
    let noBom : List Char :=
      match text with
      | c :: rest => if c.toNat = 0xfeff then rest else text
      | [] => []
    replaceCR (replaceCRLF noBom)

/-- Modelled from the spec: the line-ending normalization the spec
asks of the core's entry point, replacing every CRLF and every CR by
a newline (the same two passes cleanText performs, without the BOM
handling). -/
def normalizeNewlines (text : List Char) : List Char :=
  replaceCR (replaceCRLF text)

/-- Modelled from the spec: TableRenderer.filterEmptyRows, whose body
is quoted verbatim in the repository documentation (tableRenderer.js
itself is absent from the sources): keep the rows whose isEmpty flag
is false. -/
def filterEmptyRows (rows : List Row) : List Row :=
  rows.filter (fun row => !row.isEmpty)

/-- Modelled from the spec: TableRenderer.getDisplayRows, quoted
verbatim in the repository documentation: the current rows, filtered
when collapseEmpty is set. -/
def getDisplayRows (currentRows : List Row) (collapseEmpty : Bool) :
    List Row :=
  if collapseEmpty then filterEmptyRows currentRows else currentRows

/-- TextSplitter.hasLeadingPhrase-equivalent used by the analyzer:
LeadingPhraseDetector.hasLeadingPhrase is true exactly when
getLeadingPhrase returns a phrase. -/
def hasLeadingPhrase (line : List Char) : Bool :=
  (getLeadingPhrase line).isSome

/-- The per-line increments added to estimatedRows by
TextSplitter.analyzeSplitting beyond the base line count. -/
def extraForLine (line : List Char) : Nat :=
  match detectClauseNumber line with
  | none => 0
  | some _ =>
    1 +
      (if hasLeadingPhrase line then
        1 + (match getContentAfterPhrase line with
             | some _ => 1
             | none => 0)
      else 0)

/-- The estimatedRows field of TextSplitter.analyzeSplitting: the line
count plus the per-line increments (0 for falsy input). -/
def estimatedRowsOf (text : List Char) : Nat :=
  if text = [] then 0
  else
    let lines := splitLines text
    lines.foldl (fun acc line => acc + extraForLine line) lines.length

/-- TextSplitter.isLargeDocument: falsy input is never large;
otherwise the estimate exceeds 1000. -/
def isLargeDocument (text : List Char) : Bool :=
  if text = [] then false
  else decide (1000 < estimatedRowsOf text)

/-- The language of the anchored English clause-number row pattern of
RowGenerator.isClauseNumber, described by decomposition: one optional
amendment symbol, a non-empty ASCII digit run, an optional lowercase
letter, an optional period, and nothing else. -/
def EngClauseShape (t : List Char) : Prop :=
  ∃ sym ds suf dot : List Char,
    t = sym ++ ds ++ suf ++ dot ∧
    (sym = [] ∨ ∃ a, a ∈ amendmentSymbols ∧ sym = [a]) ∧
    ds ≠ [] ∧ (∀ c ∈ ds, isAsciiDigit c = true) ∧
    (suf = [] ∨ ∃ c, isAsciiLower c = true ∧ suf = [c]) ∧
    (dot = [] ∨ dot = ['.'])

/-- The language of the anchored Devanagari clause-number row pattern
of RowGenerator.isClauseNumber, described by decomposition. -/
def DevClauseShape (t : List Char) : Prop :=
  ∃ sym ds suf dot : List Char,
    t = sym ++ ds ++ suf ++ dot ∧
    (sym = [] ∨ ∃ a, a ∈ amendmentSymbols ∧ sym = [a]) ∧
    ds ≠ [] ∧ (∀ c ∈ ds, isDevDigit c = true) ∧
    (suf = [] ∨ ∃ c, isDevRangeLetter c = true ∧ suf = [c]) ∧
    (dot = [] ∨ dot = ['.'])

/-! ## Helper lemmas -/

theorem takeWhile_append_all {p : Char → Bool} {l1 l2 : List Char}
    (h : ∀ c ∈ l1, p c = true) :
    (l1 ++ l2).takeWhile p = l1 ++ l2.takeWhile p := by
  induction l1 with
  | nil => simp
  | cons c rest ih =>
    have hc : p c = true := h c (by simp)
    simp only [List.cons_append, List.takeWhile_cons, hc, if_true]
    rw [ih (fun x hx => h x (by simp [hx]))]

theorem dropWhile_append_all {p : Char → Bool} {l1 l2 : List Char}
    (h : ∀ c ∈ l1, p c = true) :
    (l1 ++ l2).dropWhile p = l2.dropWhile p := by
  induction l1 with
  | nil => simp
  | cons c rest ih =>
    have hc : p c = true := h c (by simp)
    simp only [List.cons_append, List.dropWhile_cons, hc, if_true]
    exact ih (fun x hx => h x (by simp [hx]))

theorem symbol_not_asciiDigit {c : Char} (h : c ∈ amendmentSymbols) :
    isAsciiDigit c = false := by
  fin_cases h <;> decide

theorem symbol_not_devDigit {c : Char} (h : c ∈ amendmentSymbols) :
    isDevDigit c = false := by
  fin_cases h <;> decide

theorem asciiDigit_not_devDigit {c : Char} (h : isAsciiDigit c = true) :
    isDevDigit c = false := by
  simp only [isAsciiDigit, Bool.and_eq_true, decide_eq_true_eq] at h
  simp only [isDevDigit, Bool.and_eq_false_iff, decide_eq_false_iff_not]
  omega

theorem asciiLower_not_asciiDigit {c : Char} (h : isAsciiLower c = true) :
    isAsciiDigit c = false := by
  simp only [isAsciiLower, Bool.and_eq_true, decide_eq_true_eq] at h
  simp only [isAsciiDigit, Bool.and_eq_false_iff, decide_eq_false_iff_not]
  omega

theorem devLetter_not_devDigit {c : Char} (h : isDevRangeLetter c = true) :
    isDevDigit c = false := by
  simp only [isDevRangeLetter, Bool.and_eq_true, decide_eq_true_eq] at h
  simp only [isDevDigit, Bool.and_eq_false_iff, decide_eq_false_iff_not]
  omega

theorem detect_none_of_subClause {line : List Char}
    (h : isSubClause line = true) : detectClauseNumber line = none := by
  have h' : subClauseMatches (jsTrimStart line) = true := h
  simp [detectClauseNumber, h']

theorem processLine_of_subClause {line : List Char}
    (h : isSubClause line = true) : processLine line = [line] := by
  simp [processLine, detect_none_of_subClause h]

theorem processLine_len (line : List Char) :
    1 ≤ (processLine line).length ∧ (processLine line).length ≤ 3 := by
  unfold processLine
  rcases hd : detectClauseNumber line with _ | d <;> simp only [hd]
  · split <;> simp
  · rcases hp : getLeadingPhrase line with _ | p <;> simp only [hp]
    · rcases hr : getRemainder line with _ | r <;> simp only [hr] <;> simp
    · rcases hc : getContentAfterPhrase line with _ | c <;> simp only [hc] <;>
        simp

theorem flatMap_processLine_len (ls : List (List Char)) :
    ls.length ≤ (ls.flatMap processLine).length := by
  induction ls with
  | nil => simp
  | cons l rest ih =>
    have h1 := (processLine_len l).1
    simp only [List.flatMap_cons, List.length_append, List.length_cons]
    omega

theorem foldl_add_map (f : List Char → Nat) (ls : List (List Char))
    (init : Nat) :
    ls.foldl (fun acc l => acc + f l) init = init + (ls.map f).sum := by
  induction ls generalizing init with
  | nil => simp
  | cons l rest ih =>
    simp only [List.foldl_cons, List.map_cons, List.sum_cons, ih]
    omega

theorem length_flatMap_eq (g : List Char → List (List Char))
    (ls : List (List Char)) :
    (ls.flatMap g).length = (ls.map fun l => (g l).length).sum := by
  induction ls with
  | nil => simp
  | cons l rest ih => simp [ih]

theorem map_sum_le {f g : List Char → Nat} (ls : List (List Char))
    (h : ∀ l ∈ ls, f l ≤ g l) : (ls.map f).sum ≤ (ls.map g).sum := by
  induction ls with
  | nil => simp
  | cons l rest ih =>
    simp only [List.map_cons, List.sum_cons]
    have h1 := h l (by simp)
    have h2 := ih (fun x hx => h x (by simp [hx]))
    omega

theorem sum_map_one_add (f : List Char → Nat) (ls : List (List Char)) :
    (ls.map fun l => 1 + f l).sum = ls.length + (ls.map f).sum := by
  induction ls with
  | nil => simp
  | cons l rest ih =>
    simp only [List.map_cons, List.sum_cons, List.length_cons, ih]
    omega

theorem processLine_le_extra (line : List Char) :
    (processLine line).length ≤ 1 + extraForLine line := by
  unfold processLine extraForLine
  rcases hd : detectClauseNumber line with _ | d <;> simp only [hd]
  · split <;> simp
  · rcases hp : getLeadingPhrase line with _ | p <;>
      simp only [hasLeadingPhrase, hp, Option.isSome_none, Option.isSome_some]
    · rcases hr : getRemainder line with _ | r <;> simp only [hr] <;> simp
    · rcases hc : getContentAfterPhrase line with _ | c <;> simp only [hc] <;>
        simp

theorem matchShape_digits_ne {isDig isLet : Char → Bool} {cs : List Char}
    {m : RegexMatch} (h : matchClauseShape isDig isLet cs = some m) :
    (afterSymWs cs).takeWhile isDig ≠ [] := by
  intro hds
  unfold matchClauseShape at h
  rw [if_pos hds] at h
  exact Option.noConfusion h

theorem matchShape_none_of_head {isDig isLet : Char → Bool} {cs : List Char}
    (h : ∀ c rest, afterSymWs cs = c :: rest → isDig c = false) :
    matchClauseShape isDig isLet cs = none := by
  have hds : (afterSymWs cs).takeWhile isDig = [] := by
    cases hc : afterSymWs cs with
    | nil => simp
    | cons c rest => simp [List.takeWhile_cons, h c rest hc]
  unfold matchClauseShape
  rw [if_pos hds]

theorem english_excludes_devanagari {cs : List Char} {m : RegexMatch}
    (hm : matchEnglish cs = some m) : matchDevanagari cs = none := by
  unfold matchEnglish at hm
  have hne := matchShape_digits_ne hm
  unfold matchDevanagari
  apply matchShape_none_of_head
  intro c rest hc
  rw [hc] at hne
  by_cases hdig : isAsciiDigit c = true
  · exact asciiDigit_not_devDigit hdig
  · exfalso
    apply hne
    simp only [Bool.not_eq_true] at hdig
    simp [List.takeWhile_cons, hdig]

theorem replaceCRLF_of_no_cr {s : List Char} (h : '\r' ∉ s) :
    replaceCRLF s = s := by
  induction s with
  | nil => rfl
  | cons c rest ih =>
    have hc : c ≠ '\r' := by
      intro hh
      exact h (by simp [hh])
    have hr : '\r' ∉ rest := fun hm => h (by simp [hm])
    cases rest with
    | nil => rfl
    | cons c2 rest2 =>
      have hstep : replaceCRLF (c :: c2 :: rest2) =
          c :: replaceCRLF (c2 :: rest2) := by
        have : ¬(c = '\r' ∧ c2 = '\n') := fun hh => hc hh.1
        simp [replaceCRLF, this]
      rw [hstep, ih hr]

theorem replaceCR_of_no_cr {s : List Char} (h : '\r' ∉ s) :
    replaceCR s = s := by
  induction s with
  | nil => rfl
  | cons c rest ih =>
    have hc : c ≠ '\r' := by
      intro hh
      exact h (by simp [hh])
    have hr : '\r' ∉ rest := fun hm => h (by simp [hm])
    simp only [replaceCR, List.map_cons] at ih ⊢
    rw [if_neg hc, ih hr]

theorem cr_not_mem_replaceCR (s : List Char) : '\r' ∉ replaceCR s := by
  intro hmem
  rcases List.mem_map.mp hmem with ⟨b, _, hfb⟩
  by_cases hbr : b = '\r' <;> simp [hbr] at hfb

theorem cr_not_mem_cleanText (s : List Char) : '\r' ∉ cleanTextL s := by
  unfold cleanTextL
  split
  · simp
  · exact cr_not_mem_replaceCR _

theorem sufDot_iff (isLet : Char → Bool) (hDotL : isLet '.' = false)
    (t2 : List Char) :
    sufDot isLet t2 = true ↔
      ∃ suf dot : List Char, t2 = suf ++ dot ∧
        (suf = [] ∨ ∃ c, isLet c = true ∧ suf = [c]) ∧
        (dot = [] ∨ dot = ['.']) := by
  constructor
  · intro h
    cases t2 with
    | nil => exact ⟨[], [], rfl, Or.inl rfl, Or.inl rfl⟩
    | cons c rest =>
      by_cases hc : isLet c = true
      · have h' : rest = [] ∨ rest = ['.'] := by
          simpa [sufDot, hc] using h
        exact ⟨[c], rest, rfl, Or.inr ⟨c, hc, rfl⟩, h'⟩
      · have h' : c :: rest = ['.'] := by
          simpa [sufDot, hc] using h
        exact ⟨[], ['.'], by simpa using h', Or.inl rfl, Or.inr rfl⟩
  · rintro ⟨suf, dot, rfl, hsuf, hdot⟩
    rcases hsuf with rfl | ⟨c, hc, rfl⟩
    · rcases hdot with rfl | rfl
      · simp [sufDot]
      · simp [sufDot, hDotL]
    · rcases hdot with rfl | rfl
      · simp [sufDot, hc]
      · simp [sufDot, hc]

theorem anchoredCore_iff (isDig isLet : Char → Bool)
    (hLD : ∀ c, isLet c = true → isDig c = false)
    (hDotD : isDig '.' = false) (hDotL : isLet '.' = false)
    (t1 : List Char) :
    anchoredCore isDig isLet t1 = true ↔
      ∃ ds suf dot : List Char,
        t1 = ds ++ suf ++ dot ∧ ds ≠ [] ∧ (∀ c ∈ ds, isDig c = true) ∧
        (suf = [] ∨ ∃ c, isLet c = true ∧ suf = [c]) ∧
        (dot = [] ∨ dot = ['.']) := by
  constructor
  · intro h
    simp only [anchoredCore, Bool.and_eq_true, decide_eq_true_eq] at h
    obtain ⟨hds, hsd⟩ := h
    obtain ⟨suf, dot, heq2, hsuf, hdot⟩ := (sufDot_iff isLet hDotL _).mp hsd
    refine ⟨t1.takeWhile isDig, suf, dot, ?_, hds, ?_, hsuf, hdot⟩
    · conv_lhs => rw [← List.takeWhile_append_dropWhile (p := isDig) (l := t1)]
      rw [heq2, ← List.append_assoc]
    · intro c hc
      exact List.mem_takeWhile_imp hc
  · rintro ⟨ds, suf, dot, rfl, hds, hdsall, hsuf, hdot⟩
    have htail_tw : (suf ++ dot).takeWhile isDig = [] := by
      rcases hsuf with rfl | ⟨c, hc, rfl⟩
      · rcases hdot with rfl | rfl
        · simp
        · simp [List.takeWhile_cons, hDotD]
      · simp [List.takeWhile_cons, hLD c hc]
    have htail_dw : (suf ++ dot).dropWhile isDig = suf ++ dot := by
      rcases hsuf with rfl | ⟨c, hc, rfl⟩
      · rcases hdot with rfl | rfl
        · simp
        · simp [List.dropWhile_cons, hDotD]
      · simp [List.dropWhile_cons, hLD c hc]
    have htw : (ds ++ suf ++ dot).takeWhile isDig = ds := by
      rw [List.append_assoc, takeWhile_append_all hdsall, htail_tw,
        List.append_nil]
    have hdw : (ds ++ suf ++ dot).dropWhile isDig = suf ++ dot := by
      rw [List.append_assoc, dropWhile_append_all hdsall, htail_dw]
    simp only [anchoredCore, Bool.and_eq_true, decide_eq_true_eq]
    refine ⟨by rw [htw]; exact hds, ?_⟩
    rw [hdw]
    exact (sufDot_iff isLet hDotL _).mpr ⟨suf, dot, rfl, hsuf, hdot⟩

theorem engAnchored_iff (t : List Char) :
    engAnchored t = true ↔ EngClauseShape t := by
  unfold engAnchored
  rw [anchoredCore_iff isAsciiDigit isAsciiLower
    (fun c hc => asciiLower_not_asciiDigit hc) (by decide) (by decide)]
  constructor
  · rintro ⟨ds, suf, dot, heq, hds, hdsall, hsuf, hdot⟩
    cases t with
    | nil =>
      exfalso
      simp only [stripOneSymbol] at heq
      exact hds (List.append_eq_nil.mp
        (List.append_eq_nil.mp heq.symm).1).1
    | cons c rest =>
      by_cases hc : c ∈ amendmentSymbols
      · have hstr : stripOneSymbol (c :: rest) = rest := by
          simp [stripOneSymbol, hc]
        rw [hstr] at heq
        exact ⟨[c], ds, suf, dot, by simp [heq], Or.inr ⟨c, hc, rfl⟩, hds,
          hdsall, hsuf, hdot⟩
      · have hstr : stripOneSymbol (c :: rest) = c :: rest := by
          simp [stripOneSymbol, hc]
        rw [hstr] at heq
        exact ⟨[], ds, suf, dot, by simp [heq], Or.inl rfl, hds, hdsall,
          hsuf, hdot⟩
  · rintro ⟨sym, ds, suf, dot, rfl, hsym, hds, hdsall, hsuf, hdot⟩
    rcases hsym with rfl | ⟨a, ha, rfl⟩
    · have hstr : stripOneSymbol (([] : List Char) ++ ds ++ suf ++ dot) =
          ds ++ suf ++ dot := by
        cases ds with
        | nil => exact absurd rfl hds
        | cons d ds' =>
          have hd : isAsciiDigit d = true := hdsall d (by simp)
          have hnm : d ∉ amendmentSymbols := by
            intro hmem
            have hf := symbol_not_asciiDigit hmem
            rw [hd] at hf
            exact Bool.noConfusion hf
          simp [stripOneSymbol, hnm]
      exact ⟨ds, suf, dot, by rw [hstr], hds, hdsall, hsuf, hdot⟩
    · have hstr : stripOneSymbol ([a] ++ ds ++ suf ++ dot) =
          ds ++ suf ++ dot := by
        simp [stripOneSymbol, ha]
      exact ⟨ds, suf, dot, by rw [hstr], hds, hdsall, hsuf, hdot⟩

theorem devAnchored_iff (t : List Char) :
    devAnchored t = true ↔ DevClauseShape t := by
  unfold devAnchored
  rw [anchoredCore_iff isDevDigit isDevRangeLetter
    (fun c hc => devLetter_not_devDigit hc) (by decide) (by decide)]
  constructor
  · rintro ⟨ds, suf, dot, heq, hds, hdsall, hsuf, hdot⟩
    cases t with
    | nil =>
      exfalso
      simp only [stripOneSymbol] at heq
      exact hds (List.append_eq_nil.mp
        (List.append_eq_nil.mp heq.symm).1).1
    | cons c rest =>
      by_cases hc : c ∈ amendmentSymbols
      · have hstr : stripOneSymbol (c :: rest) = rest := by
          simp [stripOneSymbol, hc]
        rw [hstr] at heq
        exact ⟨[c], ds, suf, dot, by simp [heq], Or.inr ⟨c, hc, rfl⟩, hds,
          hdsall, hsuf, hdot⟩
      · have hstr : stripOneSymbol (c :: rest) = c :: rest := by
          simp [stripOneSymbol, hc]
        rw [hstr] at heq
        exact ⟨[], ds, suf, dot, by simp [heq], Or.inl rfl, hds, hdsall,
          hsuf, hdot⟩
  · rintro ⟨sym, ds, suf, dot, rfl, hsym, hds, hdsall, hsuf, hdot⟩
    rcases hsym with rfl | ⟨a, ha, rfl⟩
    · have hstr : stripOneSymbol (([] : List Char) ++ ds ++ suf ++ dot) =
          ds ++ suf ++ dot := by
        cases ds with
        | nil => exact absurd rfl hds
        | cons d ds' =>
          have hd : isDevDigit d = true := hdsall d (by simp)
          have hnm : d ∉ amendmentSymbols := by
            intro hmem
            have hf := symbol_not_devDigit hmem
            rw [hd] at hf
            exact Bool.noConfusion hf
          simp [stripOneSymbol, hnm]
      exact ⟨ds, suf, dot, by rw [hstr], hds, hdsall, hsuf, hdot⟩
    · have hstr : stripOneSymbol ([a] ++ ds ++ suf ++ dot) =
          ds ++ suf ++ dot := by
        simp [stripOneSymbol, ha]
      exact ⟨ds, suf, dot, by rw [hstr], hds, hdsall, hsuf, hdot⟩

/-! ## Claim theorems -/

/-- C2 counterexample: the pipeline row for the bare digit line has
isClauseNumber=true even though the clause-number matcher rejects its
full text (the row pattern makes the terminating period optional),
contradicting both halves of the claim. -/
theorem C2_counterexample :
    (generateRowsFromText "123".data).map
      (fun r => (r.text, r.isClauseNumber)) = [("123".data, true)] ∧
    detectClauseNumber "123".data = none := by decide

/-- C2 amended: isClauseNumber is true exactly when the trimmed row
text fully matches one optional amendment symbol, a non-empty digit
run, an optional single letter, and an OPTIONAL terminating period
(English or Devanagari, with no interior whitespace); in particular a
bare digit sequence without a period does have isClauseNumber=true. -/
theorem C2_clause_flag_characterization (text : List Char) :
    rowIsClauseNumber text = true ↔
      jsTrim text ≠ [] ∧
        (EngClauseShape (jsTrim text) ∨ DevClauseShape (jsTrim text)) := by
  unfold rowIsClauseNumber
  by_cases h : jsTrim text = []
  · simp [h]
  · rw [if_neg h]
    simp only [Bool.or_eq_true]
    rw [engAnchored_iff, devAnchored_iff]
    simp [h]

/-- C1: code bug. For the documented input, the pipeline does not emit
the clause-number row as the original characters: getClauseNumberRow
prepends the amendment symbol to a full-clause text that already
contains it, so the first row is a duplicated two-symbol text (which
then also fails the clause-number row check), not the verbatim
amendment clause the repository documentation and spec state. -/
theorem C1_amendment_symbol_duplicated :
    (generateRowsFromText ("*16a. New clause here.".data)).map Row.text =
      ["**16a.".data, "New clause here.".data] ∧
    (generateRowsFromText ("*16a. New clause here.".data)).map
      Row.isClauseNumber = [false, false] ∧
    (generateRowsFromText ("*16a. New clause here.".data)).map
      Row.isAmendment = [true, false] ∧
    "**16a.".data ≠ "*16a.".data := by decide

/-- C3 counterexample: the claim fails at the empty-string input,
where splitText short-circuits to zero rows while the newline-split of
the empty string has one (empty) line. -/
theorem C3_counterexample :
    (splitTextL ([] : List Char)).length <
      (splitLines ([] : List Char)).length := by decide

/-- C3 amended: for every NON-empty input, every line yields between
1 and 3 Segments and the emitted row count is at least the line count;
the empty string instead short-circuits to zero rows. -/
theorem C3_row_count (s : List Char) (hs : s ≠ []) :
    (splitLines s).length ≤ (splitTextL s).length ∧
    ∀ line : List Char,
      1 ≤ (processLine line).length ∧ (processLine line).length ≤ 3 := by
  refine ⟨?_, fun line => processLine_len line⟩
  simp only [splitTextL, if_neg hs]
  exact flatMap_processLine_len _

/-- Witness for C3_row_count at the two-line input "a", "b". -/
theorem C3_row_count_witness :
    ("a\nb".data ≠ ([] : List Char)) ∧
    (splitLines "a\nb".data).length ≤ (splitTextL "a\nb".data).length :=
  ⟨by decide, (C3_row_count "a\nb".data (by decide)).1⟩

/-- C4: a line that begins (after left-trim) with the sub-clause
shape is rejected by the clause-number matcher and emitted verbatim
as exactly one Segment, regardless of anything later in the line. -/
theorem C4_subclause_unsplit (line : List Char)
    (h : isSubClause line = true) :
    detectClauseNumber line = none ∧ processLine line = [line] :=
  ⟨detect_none_of_subClause h, processLine_of_subClause h⟩

/-- Witness for C4_subclause_unsplit at a sub-clause line with an
embedded colon and clause-like text. -/
theorem C4_subclause_unsplit_witness :
    isSubClause "(a) content: 1. x".data = true ∧
    detectClauseNumber "(a) content: 1. x".data = none ∧
    processLine "(a) content: 1. x".data = ["(a) content: 1. x".data] := by
  have h : isSubClause "(a) content: 1. x".data = true := by decide
  exact ⟨h, (C4_subclause_unsplit _ h).1, (C4_subclause_unsplit _ h).2⟩

/-- C5: every non-string input, and the empty string, yields the
empty row sequence (totally, without raising). -/
theorem C5_invalid_input (inp : JSInput)
    (h : inp.isString = false ∨ inp = JSInput.jsStr []) :
    splitTextJS inp = [] ∧ generateRows (splitTextJS inp) = [] := by
  rcases h with h | rfl
  · cases inp <;>
      simp_all [splitTextJS, JSInput.isString, generateRows, generateRowsAux]
  · simp [splitTextJS, splitTextL, generateRows, generateRowsAux]

/-- Witness for C5_invalid_input at the null input. -/
theorem C5_invalid_input_witness :
    JSInput.jsNull.isString = false ∧
    splitTextJS JSInput.jsNull = [] ∧
    generateRows (splitTextJS JSInput.jsNull) = [] :=
  ⟨rfl, (C5_invalid_input JSInput.jsNull (Or.inl rfl)).1,
    (C5_invalid_input JSInput.jsNull (Or.inl rfl)).2⟩

/-- C6: the collapse view with collapseEmpty set keeps exactly the
rows whose isEmpty flag is false, in their original relative order
(it is a sublist of the input). -/
theorem C6_collapse_view (rows : List Row) :
    (getDisplayRows rows true).Sublist rows ∧
    ∀ r : Row, r ∈ getDisplayRows rows true ↔
      r ∈ rows ∧ r.isEmpty = false := by
  constructor
  · simp only [getDisplayRows, filterEmptyRows, if_true]
    exact List.filter_sublist rows
  · intro r
    simp [getDisplayRows, filterEmptyRows, List.mem_filter]

/-- C7 counterexample: the claim fails on a lone carriage return —
the core pipeline does not normalize line endings at its entry. -/
theorem C7_counterexample :
    splitTextL ['a', '\r', 'b'] ≠
      splitTextL (normalizeNewlines ['a', '\r', 'b']) := by decide

/-- C7 amended: normalizing line endings is done by the external
TextExtractor.cleanText, whose output never contains a carriage
return; the pipeline is invariant under normalization only on inputs
already free of carriage returns. -/
theorem C7_normalization_external (s : List Char) :
    '\r' ∉ cleanTextL s ∧
    ('\r' ∉ s → splitTextL s = splitTextL (normalizeNewlines s)) := by
  refine ⟨cr_not_mem_cleanText s, fun h => ?_⟩
  unfold normalizeNewlines
  rw [replaceCRLF_of_no_cr h, replaceCR_of_no_cr h]

/-- Witness for C7_normalization_external at a carriage-return-free
input. -/
theorem C7_normalization_external_witness :
    ('\r' ∉ (['a', 'b'] : List Char)) ∧
    splitTextL ['a', 'b'] = splitTextL (normalizeNewlines ['a', 'b']) :=
  ⟨by decide, (C7_normalization_external ['a', 'b']).2 (by decide)⟩

/-- C8 counterexample: the empty string gets the fifth tag (unknown),
not Other as the claim states. -/
theorem C8_counterexample :
    detectLanguage [] = Lang.unknown ∧ Lang.unknown ≠ Lang.other := by
  decide

/-- C8 amended: for every NON-empty string the classifier returns one
of the four tags with the stated script conditions; the empty string
returns a fifth tag, unknown. -/
theorem C8_four_tags (s : List Char) (h : s ≠ []) :
    (detectLanguage s = Lang.mixed ↔
      s.any isAsciiLetter = true ∧ s.any isDevBlock = true) ∧
    (detectLanguage s = Lang.english ↔
      s.any isAsciiLetter = true ∧ s.any isDevBlock = false) ∧
    (detectLanguage s = Lang.devanagari ↔
      s.any isDevBlock = true ∧ s.any isAsciiLetter = false) ∧
    (detectLanguage s = Lang.other ↔
      s.any isAsciiLetter = false ∧ s.any isDevBlock = false) := by
  unfold detectLanguage
  rw [if_neg h]
  cases hE : s.any isAsciiLetter <;> cases hD : s.any isDevBlock <;>
    simp [hE, hD]

/-- Witness for C8_four_tags at the one-letter input. -/
theorem C8_four_tags_witness :
    (("a".data : List Char) ≠ []) ∧ detectLanguage "a".data = Lang.english :=
  ⟨by decide, ((C8_four_tags "a".data (by decide)).2.1).mpr (by decide)⟩

/-- C9: a sub-clause match forces the clause result to none, and no
line can match both the English and the Devanagari clause shape,
since their digit ranges never overlap. -/
theorem C9_mutual_exclusion (line : List Char) :
    (isSubClause line = true → detectClauseNumber line = none) ∧
    ∀ m : RegexMatch,
      matchEnglish line = some m → matchDevanagari line = none :=
  ⟨fun h => detect_none_of_subClause h,
    fun _ hm => english_excludes_devanagari hm⟩

/-- Witness for C9_mutual_exclusion at a sub-clause line and an
English clause line. -/
theorem C9_mutual_exclusion_witness :
    isSubClause "(a) x".data = true ∧
    detectClauseNumber "(a) x".data = none ∧
    matchEnglish "5. x".data = some ⟨"5.".data, "5".data⟩ ∧
    matchDevanagari "5. x".data = none := by
  have h1 : isSubClause "(a) x".data = true := by decide
  have h2 : matchEnglish "5. x".data = some ⟨"5.".data, "5".data⟩ := by
    decide
  exact ⟨h1, (C9_mutual_exclusion "(a) x".data).1 h1, h2,
    (C9_mutual_exclusion "5. x".data).2 _ h2⟩

/-- C10: the pre-flight estimator never undercounts the rows actually
produced by splitText, so the large-document warning is a sound
over-approximation: a document not flagged as large produces at most
1000 rows. -/
theorem C10_estimator_never_undercounts (s : List Char) :
    (splitTextL s).length ≤ estimatedRowsOf s ∧
    (isLargeDocument s = false → (splitTextL s).length ≤ 1000) := by
  have key : (splitTextL s).length ≤ estimatedRowsOf s := by
    by_cases hs : s = []
    · simp [splitTextL, estimatedRowsOf, hs]
    · simp only [splitTextL, estimatedRowsOf, if_neg hs]
      rw [length_flatMap_eq processLine, foldl_add_map extraForLine]
      have step1 :
          ((splitLines s).map fun l => (processLine l).length).sum ≤
            ((splitLines s).map fun l => 1 + extraForLine l).sum :=
        map_sum_le _ (fun l _ => processLine_le_extra l)
      have step2 :
          ((splitLines s).map fun l => 1 + extraForLine l).sum =
            (splitLines s).length +
              ((splitLines s).map extraForLine).sum :=
        sum_map_one_add _ _
      omega
  refine ⟨key, fun hL => ?_⟩
  by_cases hs : s = []
  · simp [splitTextL, hs]
  · have hb : ¬(1000 < estimatedRowsOf s) := by
      simpa [isLargeDocument, if_neg hs] using hL
    omega

/-- Witness for C10_estimator_never_undercounts at a one-line input
that is not flagged large. -/
theorem C10_estimator_witness :
    isLargeDocument "a".data = false ∧
    (splitTextL "a".data).length ≤ 1000 :=
  ⟨by decide, (C10_estimator_never_undercounts "a".data).2 (by decide)⟩
